import Mathlib

/-!
Verification development for `apachehttpmount.py`: a read-only FUSE filesystem
that projects an Apache "Index of" HTTP tree.  The Python source is shallowly
embedded: pure helpers become Lean functions, the path-indexed cache becomes an
explicit state threaded through each operation, the HTTP transport becomes a
deterministic oracle `Server`, Python exceptions become an error sum `PyErr`,
and the unbounded recursion of `Http._get` is driven by an explicit fuel
parameter (`PyErr.outOfFuel` marks exhaustion, which we prove unreachable for
sufficient fuel).  Machine floats (`0.1 + float(str_size)`) are modelled as
exact dyadic rationals over `Nat` with round-to-nearest-even at 53 significant
bits, which is exact IEEE-754 binary64 behaviour on the normal range used here.
Byte strings (`response.content`) are modelled as `String` (the listings and
bodies involved are ASCII, so `len` agrees with character length).
-/

set_option maxRecDepth 40000

namespace AHMount

/-! ## Basic list and string utilities mirroring the Python primitives -/

/-- Numeric value of a list of ASCII digit characters (most significant first);
an empty list yields 0, matching `int("")`-free use sites where the empty
integer or fraction part of a float literal contributes nothing. -/
def natOfDigits (cs : List Char) : ℕ :=
  cs.foldl (fun a c => 10 * a + (c.toNat - 48)) 0

/-- Auxiliary scanner for `countSub`: counts non-overlapping occurrences, with
`skip` recording how many positions remain inside an already-counted match. -/
def countSubAux (sub : List Char) : List Char → ℕ → ℕ
  | [], _ => 0
  | c :: rest, skip =>
    match skip with
    | k + 1 => countSubAux sub rest k
    | 0 =>
      if sub.isPrefixOf (c :: rest) then 1 + countSubAux sub rest (sub.length - 1)
      else countSubAux sub rest 0

/-- Python `str.count(sub)` for a nonempty `sub`: the number of non-overlapping
occurrences scanning from the left. -/
def countSub (sub cs : List Char) : ℕ := countSubAux sub cs 0

/-- Index of the first occurrence of `sub`, mirroring Python `str.index`
(which the source only calls after asserting the count is 1). -/
def idxOf (sub : List Char) : List Char → Option ℕ
  | [] => none
  | c :: rest =>
    if sub.isPrefixOf (c :: rest) then some 0 else (idxOf sub rest).map (· + 1)

/-- Auxiliary for `splitLines`. -/
def splitLinesAux : List Char → List Char → List (List Char)
  | [], acc => if acc.isEmpty then [] else [acc.reverse]
  | '\r' :: '\n' :: rest, acc => acc.reverse :: splitLinesAux rest []
  | '\r' :: rest, acc => acc.reverse :: splitLinesAux rest []
  | '\n' :: rest, acc => acc.reverse :: splitLinesAux rest []
  | c :: rest, acc => splitLinesAux rest (c :: acc)

/-- Python `str.splitlines()` restricted to the line breaks that occur in the
HTML bodies at hand (`\n`, `\r`, `\r\n`); a trailing break produces no empty
final line, and an empty string produces no lines. -/
def splitLines (cs : List Char) : List (List Char) := splitLinesAux cs []

/-- The characters matched by the regex class `\s` on the ASCII inputs at hand. -/
def pyIsSpace (c : Char) : Bool :=
  c = ' ' ∨ c = '\t' ∨ c = '\n' ∨ c = '\r' ∨ c = '\x0b' ∨ c = '\x0c'

/-- The characters matched by the regex class `\w` on the ASCII inputs at hand. -/
def isWordChar (c : Char) : Bool :=
  c.isDigit ∨ ('a' ≤ c ∧ c ≤ 'z') ∨ ('A' ≤ c ∧ c ≤ 'Z') ∨ c = '_'

/-- Python `s.rstrip('/')`: drop every trailing slash. -/
def rstripSlashL (cs : List Char) : List Char :=
  (cs.reverse.dropWhile (fun c => c = '/')).reverse

/-- Python `s.lstrip('/')`: drop every leading slash. -/
def lstripSlashL (cs : List Char) : List Char :=
  cs.dropWhile (fun c => c = '/')

/-- `p[: p.rfind('/') + 1]`: the prefix of `p` up to and including the last
slash (empty when `p` has no slash), as in `posixpath.split`. -/
def splitHead (cs : List Char) : List Char :=
  (cs.reverse.dropWhile (fun c => c ≠ '/')).reverse

/-- `os.path.basename` for POSIX paths: everything after the last slash. -/
def basenameL (cs : List Char) : List Char :=
  (cs.reverse.takeWhile (fun c => c ≠ '/')).reverse

/-- `os.path.dirname` for POSIX paths: the head up to the last slash, with
trailing slashes stripped unless the head consists only of slashes. -/
def dirnameL (cs : List Char) : List Char :=
  if ¬(splitHead cs).isEmpty ∧ (splitHead cs).any (fun c => c ≠ '/') then
    rstripSlashL (splitHead cs)
  else splitHead cs

/-- String-typed `os.path.basename`. -/
def basenameS (p : String) : String := String.mk (basenameL p.toList)

/-- String-typed `os.path.dirname`. -/
def dirnameS (p : String) : String := String.mk (dirnameL p.toList)

/-- `posixpath.join a b` for a single right operand. -/
def pyJoinL (a b : List Char) : List Char :=
  if b.head? = some '/' then b
  else if a.isEmpty ∨ a.getLast? = some '/' then a ++ b
  else a ++ '/' :: b

/-- `Http._full_path`: `os.path.join(self.root, partial.lstrip('/'))`. -/
def fullPath (root partial_ : String) : String :=
  String.mk (pyJoinL root.toList (lstripSlashL partial_.toList))

/-! ## Exact binary64 model over dyadic naturals

Every value arising from the size computation is a nonnegative binary64 float
in the normal range; such a float is exactly a dyadic rational `num / 2 ^
den2`.  IEEE addition and multiplication are the exact operation followed by
rounding to 53 significant bits, nearest-even. -/

/-- Auxiliary for `bitlen`, structurally recursive on fuel. -/
def bitlenAux : ℕ → ℕ → ℕ
  | 0, _ => 0
  | fuel + 1, n => if n = 0 then 0 else bitlenAux fuel (n / 2) + 1

/-- Number of binary digits of `n` (0 for 0), so `2 ^ (bitlen n - 1) ≤ n < 2 ^
bitlen n` for positive `n`. -/
def bitlen (n : ℕ) : ℕ := bitlenAux n n

/-- Round `a / b` (с `b > 0`) to the nearest integer, ties to even. -/
def roundDivHE (a b : ℕ) : ℕ :=
  let q := a / b
  let r := a % b
  if 2 * r < b then q
  else if b < 2 * r then q + 1
  else if q % 2 = 0 then q else q + 1

/-- A nonnegative dyadic rational `num / 2 ^ den2`. -/
structure Dy where
  num : ℕ
  den2 : ℕ
deriving DecidableEq, Repr

/-- Round a dyadic to 53 significant bits, nearest-even: the IEEE binary64
rounding step on the normal range. -/
def round53 (d : Dy) : Dy :=
  if d.num = 0 then ⟨0, 0⟩
  else
    let L := bitlen d.num
    if L ≤ 53 then d
    else
      let sh := L - 53
      ⟨roundDivHE d.num (2 ^ sh) * 2 ^ sh, d.den2⟩

/-- IEEE binary64 addition on the model: exact sum, then round. -/
def fadd (x y : Dy) : Dy :=
  let s := max x.den2 y.den2
  round53 ⟨x.num * 2 ^ (s - x.den2) + y.num * 2 ^ (s - y.den2), s⟩

/-- IEEE binary64 multiplication on the model: exact product, then round. -/
def fmul (x y : Dy) : Dy :=
  round53 ⟨x.num * y.num, x.den2 + y.den2⟩

/-- The binary64 float nearest to `a / b` (round-to-nearest-even), i.e. the
result of correctly rounded decimal conversion as CPython's `float()` performs,
for positive rationals in the normal range. -/
def floatOfRatN (a b : ℕ) : Dy :=
  if a = 0 then ⟨0, 0⟩
  else
    let K := bitlen b
    let e := bitlen (a * 2 ^ K / b) - 1
    if e ≤ 52 + K then
      ⟨roundDivHE (a * 2 ^ (52 + K - e)) b, 52 + K - e⟩
    else
      ⟨roundDivHE a (b * 2 ^ (e - (52 + K))) * 2 ^ (e - (52 + K)), 0⟩

/-- Python's literal `0.1` as a binary64 value. -/
def f01 : Dy := floatOfRatN 1 10

/-- `int()` truncation of a nonnegative dyadic (truncation = floor here). -/
def dyFloor (d : Dy) : ℕ := d.num / 2 ^ d.den2

/-! ## `datetime.datetime.strptime(s, '%d-%b-%Y %H:%M')` -/

/-- The result of `datetime.datetime.strptime(..., '%d-%b-%Y %H:%M')`: a
calendar date-time at minute resolution (seconds are always zero).  The
float conversion `datetime.timestamp()` applied at the adapter boundary is a
strictly monotone injection of this data and is not modelled further. -/
structure DateTime where
  year : ℕ
  month : ℕ
  day : ℕ
  hour : ℕ
  minute : ℕ
deriving DecidableEq, Repr

/-- `datetime.datetime.fromtimestamp(0)`: the fixed epoch timestamp used for
the synthetic root entry (rendered in the process time zone; we use UTC). -/
def epochDT : DateTime := ⟨1970, 1, 1, 0, 0⟩

/-- Value of an ASCII digit. -/
def dv (c : Char) : ℕ := c.toNat - 48

/-- The `%d` field of `_strptime`: regex `3[01]|[12]\d|0[1-9]|[1-9]`. -/
def pDay : List Char → Option (ℕ × List Char)
  | c1 :: c2 :: rest =>
    if c1 = '3' ∧ (c2 = '0' ∨ c2 = '1') then some (30 + dv c2, rest)
    else if (c1 = '1' ∨ c1 = '2') ∧ c2.isDigit then some (10 * dv c1 + dv c2, rest)
    else if c1 = '0' ∧ c2.isDigit ∧ c2 ≠ '0' then some (dv c2, rest)
    else if c1.isDigit ∧ c1 ≠ '0' then some (dv c1, c2 :: rest)
    else none
  | [c1] => if c1.isDigit ∧ c1 ≠ '0' then some (dv c1, []) else none
  | [] => none

/-- The `%H` field of `_strptime`: regex `2[0-3]|[0-1]\d|\d`. -/
def pHour : List Char → Option (ℕ × List Char)
  | c1 :: c2 :: rest =>
    if c1 = '2' ∧ ('0' ≤ c2 ∧ c2 ≤ '3') then some (20 + dv c2, rest)
    else if (c1 = '0' ∨ c1 = '1') ∧ c2.isDigit then some (10 * dv c1 + dv c2, rest)
    else if c1.isDigit then some (dv c1, c2 :: rest)
    else none
  | [c1] => if c1.isDigit then some (dv c1, []) else none
  | [] => none

/-- The `%M` field of `_strptime`: regex `[0-5]\d|\d`. -/
def pMin : List Char → Option (ℕ × List Char)
  | c1 :: c2 :: rest =>
    if ('0' ≤ c1 ∧ c1 ≤ '5') ∧ c2.isDigit then some (10 * dv c1 + dv c2, rest)
    else if c1.isDigit then some (dv c1, c2 :: rest)
    else none
  | [c1] => if c1.isDigit then some (dv c1, []) else none
  | [] => none

/-- The `%b` field of `_strptime`: the twelve abbreviated month names, matched
case-insensitively (CPython lowercases both the data and the names). -/
def pMon : List Char → Option (ℕ × List Char)
  | c1 :: c2 :: c3 :: rest =>
    let w := [c1.toLower, c2.toLower, c3.toLower]
    if w = ['j', 'a', 'n'] then some (1, rest)
    else if w = ['f', 'e', 'b'] then some (2, rest)
    else if w = ['m', 'a', 'r'] then some (3, rest)
    else if w = ['a', 'p', 'r'] then some (4, rest)
    else if w = ['m', 'a', 'y'] then some (5, rest)
    else if w = ['j', 'u', 'n'] then some (6, rest)
    else if w = ['j', 'u', 'l'] then some (7, rest)
    else if w = ['a', 'u', 'g'] then some (8, rest)
    else if w = ['s', 'e', 'p'] then some (9, rest)
    else if w = ['o', 'c', 't'] then some (10, rest)
    else if w = ['n', 'o', 'v'] then some (11, rest)
    else if w = ['d', 'e', 'c'] then some (12, rest)
    else none
  | _ => none

/-- Gregorian leap year rule, as validated by the `datetime` constructor. -/
def isLeap (y : ℕ) : Bool := y % 4 = 0 ∧ (y % 100 ≠ 0 ∨ y % 400 = 0)

/-- Days in a month, as validated by the `datetime` constructor. -/
def daysInMonth (y m : ℕ) : ℕ :=
  if m = 2 then (if isLeap y then 29 else 28)
  else if m = 4 ∨ m = 6 ∨ m = 9 ∨ m = 11 then 30
  else 31

/-- Exactly four ASCII digits, the `%Y` field of `_strptime`. -/
def pYear4 : List Char → Option (ℕ × List Char)
  | c1 :: c2 :: c3 :: c4 :: rest =>
    if c1.isDigit ∧ c2.isDigit ∧ c3.isDigit ∧ c4.isDigit then
      some (1000 * dv c1 + 100 * dv c2 + 10 * dv c3 + dv c4, rest)
    else none
  | _ => none

/-- One-or-more whitespace characters (a literal blank in a `strptime` format
matches `\s+`). -/
def pSpaces1 (cs : List Char) : Option (List Char) :=
  match cs with
  | c :: rest => if pyIsSpace c then some (rest.dropWhile pyIsSpace) else none
  | [] => none

/-- `datetime.datetime.strptime(' '.join((str_date, str_time)), '%d-%b-%Y
%H:%M')`: parse the whole joined string and apply the constructor's range
validation (`MINYEAR ≤ year`, day within the month).  `none` models the
`ValueError` that would crash `_parse_listing`. -/
def strptimeDMY (date time : List Char) : Option DateTime := do
  let cs := date ++ ' ' :: time
  let (d, cs) ← pDay cs
  let cs ← if cs.head? = some '-' then some cs.tail else none
  let (mo, cs) ← pMon cs
  let cs ← if cs.head? = some '-' then some cs.tail else none
  let (y, cs) ← pYear4 cs
  let cs ← pSpaces1 cs
  let (h, cs) ← pHour cs
  let cs ← if cs.head? = some ':' then some cs.tail else none
  let (mi, cs) ← pMin cs
  if cs.isEmpty ∧ 1 ≤ y ∧ d ≤ daysInMonth y mo then
    some ⟨y, mo, d, h, mi⟩
  else none

/-! ## The entry-line regex and `Http._parse_listing` -/

/-- The named groups of the entry-line regex in `_parse_listing`:
`^<img src="[^"]+" alt="\[(?P<icon>[^"]+)\]"> <a href="(?P<url>[^"]+)">`
`(?P<name>[^<]+)</a>\s*(?P<date>\d+-\w+-\d+)\s+(?P<time>\d+:\d+)\s+`
`(?P<size>[0-9.]+|-)(?P<sizeunit>\w?)\s*$`. -/
structure EGroups where
  icon : List Char
  url : List Char
  name : List Char
  date : List Char
  time : List Char
  size : List Char
  sizeunit : List Char
deriving DecidableEq, Repr

/-- Consume an exact literal prefix, or fail. -/
def dropLit : List Char → List Char → Option (List Char)
  | [], cs => some cs
  | _ :: _, [] => none
  | l :: ls, c :: cs => if c = l then dropLit ls cs else none

/-- Consume a nonempty maximal run of characters satisfying `p` (the
deterministic reading of a greedy `X+` whose follow set is disjoint from `X`),
or fail. -/
def takeRun1 (p : Char → Bool) (cs : List Char) : Option (List Char × List Char) :=
  let t := cs.takeWhile p
  if t.isEmpty then none else some (t, cs.drop t.length)

/-- Consume one expected character, or fail. -/
def expectC (ch : Char) (cs : List Char) : Option (List Char) :=
  match cs with
  | c :: rest => if c = ch then some rest else none
  | [] => none

/-- Phase 1 of the entry regex: `<img src="[^"]+" alt="\[(?P<icon>[^"]+)\]"> `.
The greedy `[^"]+` before `\]">` forces the icon run to be the maximal
non-quote run, which must end in `]` (dropped) right before the quote. -/
def matchIcon (line : List Char) : Option (List Char × List Char) :=
  match dropLit "<img src=\"".toList line with
  | none => none
  | some cs =>
    match takeRun1 (fun c => c ≠ '"') cs with
    | none => none
    | some (_src, cs) =>
      match dropLit "\" alt=\"[".toList cs with
      | none => none
      | some cs =>
        match takeRun1 (fun c => c ≠ '"') cs with
        | none => none
        | some (r, cs) =>
          if r.getLast? = some ']' ∧ 2 ≤ r.length then
            match dropLit "\"> <a href=\"".toList cs with
            | none => none
            | some cs => some (r.dropLast, cs)
          else none

/-- Phase 2 of the entry regex: `(?P<url>[^"]+)">(?P<name>[^<]+)</a>`. -/
def matchAnchor (cs : List Char) :
    Option (List Char × List Char × List Char) :=
  match takeRun1 (fun c => c ≠ '"') cs with
  | none => none
  | some (url, cs) =>
    match dropLit "\">".toList cs with
    | none => none
    | some cs =>
      match takeRun1 (fun c => c ≠ '<') cs with
      | none => none
      | some (nm, cs) =>
        match dropLit "</a>".toList cs with
        | none => none
        | some cs => some (url, nm, cs)

/-- Phase 3 of the entry regex:
`\s*(?P<date>\d+-\w+-\d+)\s+(?P<time>\d+:\d+)\s+`.  Every greedy run here is
forced because its follow character is outside its class. -/
def matchStamp (cs0 : List Char) :
    Option (List Char × List Char × List Char) :=
  let cs := cs0.dropWhile pyIsSpace
  match takeRun1 Char.isDigit cs with
  | none => none
  | some (d1, cs) =>
    match expectC '-' cs with
    | none => none
    | some cs =>
      match takeRun1 isWordChar cs with
      | none => none
      | some (mon, cs) =>
        match expectC '-' cs with
        | none => none
        | some cs =>
          match takeRun1 Char.isDigit cs with
          | none => none
          | some (d2, cs) =>
            match takeRun1 pyIsSpace cs with
            | none => none
            | some (_s1, cs) =>
              match takeRun1 Char.isDigit cs with
              | none => none
              | some (t1, cs) =>
                match expectC ':' cs with
                | none => none
                | some cs =>
                  match takeRun1 Char.isDigit cs with
                  | none => none
                  | some (t2, cs) =>
                    match takeRun1 pyIsSpace cs with
                    | none => none
                    | some (_s2, cs) =>
                      some (d1 ++ '-' :: mon ++ '-' :: d2, t1 ++ ':' :: t2, cs)

/-- Phase 4 of the entry regex: `(?P<size>[0-9.]+|-)(?P<sizeunit>\w?)\s*$`.
The only live backtracking in the whole pattern is `\w?` against a digit-run
prefix; a case analysis of Python's engine shows a match exists exactly when
either a word character follows the maximal size run with only whitespace
after it (unit taken), or only whitespace follows the run (unit empty). -/
def matchSize (cs0 : List Char) : Option (List Char × List Char) :=
  let szrun := cs0.takeWhile (fun c => c.isDigit ∨ c = '.')
  let szres : Option (List Char × List Char) :=
    if szrun.isEmpty then
      match expectC '-' cs0 with
      | none => none
      | some cs => some (['-'], cs)
    else some (szrun, cs0.drop szrun.length)
  match szres with
  | none => none
  | some (sz, cs) =>
    match cs with
    | [] => some (sz, [])
    | c :: rest =>
      if isWordChar c ∧ rest.all pyIsSpace then some (sz, [c])
      else if (c :: rest).all pyIsSpace then some (sz, [])
      else none

/-- Match the entry-line regex of `_parse_listing` against one line, phase by
phase; see the phase functions for how each greedy subpattern is forced. -/
def entryMatch (line : List Char) : Option EGroups :=
  match matchIcon line with
  | none => none
  | some (icon, cs) =>
    match matchAnchor cs with
    | none => none
    | some (url, nm, cs) =>
      match matchStamp cs with
      | none => none
      | some (date, time, cs) =>
        match matchSize cs with
        | none => none
        | some (sz, unit) => some ⟨icon, url, nm, date, time, sz, unit⟩

/-- `sizes.index(str_sizeunit)` for `sizes = [''] + list('KMGTP')`; `none`
models the `ValueError` raised for any other unit character. -/
def rankOf (u : List Char) : Option ℕ :=
  if u = [] then some 0
  else if u = ['K'] then some 1
  else if u = ['M'] then some 2
  else if u = ['G'] then some 3
  else if u = ['T'] then some 4
  else if u = ['P'] then some 5
  else none

/-- The size computation of `_parse_listing`:
`0 if str_size == '-' else int((0.1 + float(str_size)) * 2 ** (10 * rank))`,
with the float arithmetic carried out in exact binary64.  `none` models the
`ValueError` from `float()` on a malformed `[0-9.]+` string (for example
`"1.2.3"` or `"."`) or from `sizes.index` on an unknown unit. -/
def sizeDecode (strSize strUnit : List Char) : Option ℕ :=
  if strSize = ['-'] then some 0
  else if (strSize.all fun c => c.isDigit ∨ c = '.') ∧ strSize.any Char.isDigit
      ∧ strSize.count '.' ≤ 1 then
    match rankOf strUnit with
    | none => none
    | some k =>
      let ip := strSize.takeWhile (fun c => c ≠ '.')
      let fp := (strSize.dropWhile (fun c => c ≠ '.')).drop 1
      let v := floatOfRatN (natOfDigits ip * 10 ^ fp.length + natOfDigits fp)
        (10 ^ fp.length)
      some (dyFloor (fmul (fadd f01 v) (floatOfRatN (2 ^ (10 * k)) 1)))
  else none

/-- One directory entry value, the tuple `(icon, size, mtime)` stored by
`_parse_listing` and back-patched by `_get`. -/
structure Dirent where
  icon : String
  size : ℕ
  mtime : DateTime
deriving DecidableEq, Repr

/-- The ordered mapping built by `_parse_listing`: an association list with
`collections.OrderedDict` semantics (first occurrence fixes the position,
assignment to an existing key overwrites in place). -/
abbrev Listing := List (String × Dirent)

/-- First-match association lookup (Python `d[k]` returning `None`-free hits). -/
def lookupA {β : Type} : List (String × β) → String → Option β
  | [], _ => none
  | (k, v) :: t, q => if k = q then some v else lookupA t q

/-- Python `d[k] = v` on an (ordered) dict represented as an association list:
overwrite in place when the key is present, append otherwise. -/
def updAssoc {β : Type} (d : List (String × β)) (k : String) (v : β) :
    List (String × β) :=
  if (lookupA d k).isSome then
    d.map (fun p => if p.1 = k then (k, v) else p)
  else d ++ [(k, v)]

/-- The body of the per-line work in `_parse_listing`: regex match, `url ==
name` assert, directory detection and slash stripping, icon consistency
assert, `strptime`, size decoding.  `none` models any of the `AssertionError`s
or `ValueError`s that would crash the parse. -/
def parseEntry (line : List Char) : Option (String × Dirent) :=
  match entryMatch line with
  | none => none
  | some g =>
    if g.url ≠ g.name then none
    else if (g.name.getLast? = some '/') ↔ (g.icon = "DIR".toList) then
      match strptimeDMY g.date g.time, sizeDecode g.size g.sizeunit with
      | some mt, some sz =>
        some (String.mk (rstripSlashL g.name), ⟨String.mk g.icon, sz, mt⟩)
      | _, _ => none
    else none

/-- The entry loop of `_parse_listing`: fold the lines into an ordered dict. -/
def parseEntries : List (List Char) → Listing → Option Listing
  | [], acc => some acc
  | l :: ls, acc =>
    match parseEntry l with
    | none => none
    | some (n, e) => parseEntries ls (updAssoc acc n e)

/-- The structural part of `_parse_listing`: exactly one `<pre>` and one
`</pre>`, slice between them, split lines, check the header line mentions
`Name` and `Last modified` exactly once each, check the last line is `<hr>`,
and return the entry lines `lines[1:-1]`.  `none` models the assertion or
index errors that would crash the parse. -/
def extractEntries (text : String) : Option (List (List Char)) :=
  let cs := text.toList
  if countSub "<pre>".toList cs = 1 ∧ countSub "</pre>".toList cs = 1 then
    match idxOf "<pre>".toList cs, idxOf "</pre>".toList cs with
    | some i, some j =>
      let lines := splitLines ((cs.take j).drop (i + 5))
      match lines with
      | [] => none
      | header :: _ =>
        if countSub "Name".toList header = 1
            ∧ countSub "Last modified".toList header = 1 then
          if lines.getLast? = some "<hr>".toList then some ((lines.drop 1).dropLast)
          else none
        else none
    | _, _ => none
  else none

/-- `Http._parse_listing`. -/
def parseListing (text : String) : Option Listing :=
  match extractEntries text with
  | none => none
  | some ls => parseEntries ls []

/-- The anchor texts (the regex `name` group) of a list of entry lines, in
input order; `none` when some line does not match the entry regex. -/
def anchorNames : List (List Char) → Option (List String)
  | [] => some []
  | l :: ls =>
    match entryMatch l, anchorNames ls with
    | some g, some as => some (String.mk g.name :: as)
    | _, _ => none

/-- `name.rstrip('/')` on strings. -/
def stripSlashS (s : String) : String := String.mk (rstripSlashL s.toList)

/-- First-occurrence deduplication with an explicit seen accumulator. -/
def firstDedupAux : List String → List String → List String
  | [], _ => []
  | a :: l, seen =>
    if a ∈ seen then firstDedupAux l seen else a :: firstDedupAux l (a :: seen)

/-- First-occurrence deduplication: the key sequence of an ordered dict built
by repeated assignment. -/
def firstDedup (l : List String) : List String := firstDedupAux l []

/-! ## The path-indexed cache and the filesystem operations -/

/-- The module-level constant `LISTING`: the fixed signature prefix that
identifies an auto-index body. -/
def listingSig : String :=
  "<!DOCTYPE HTML PUBLIC \"-//W3C//DTD HTML 3.2 Final//EN\">\n<html>\n <head>\n  <title>Index of "

/-- One HTTP response: `requests.get` status code and body (`response.content`
and `response.text` coincide on the ASCII bodies modelled here). -/
structure Response where
  status : ℕ
  body : String
deriving DecidableEq, Repr

/-- The HTTP transport as a deterministic oracle from full URL to response. -/
abbrev Server := String → Response

/-- One cache slot of `self._cache`: `None` (the 404 tombstone), a parsed
`OrderedDict` listing, or raw file content bytes. -/
inductive CacheEntry where
  | absent
  | listing (d : Listing)
  | content (b : String)
deriving DecidableEq, Repr

/-- The mutable state of one `Http` instance: the configured root URL, the
path-indexed cache dict, the `nobody` uid/gid, and the `fd` counter. -/
structure St where
  root : String
  cache : List (String × CacheEntry)
  uid : ℕ
  gid : ℕ
  fd : ℕ
deriving DecidableEq, Repr

/-- `self._cache[path] = e`. -/
def setCache (st : St) (p : String) (e : CacheEntry) : St :=
  { st with cache := updAssoc st.cache p e }

/-- Python exception outcomes escaping an operation: `FuseOSError(code)`,
`FileNotFoundError(path)`, the `AssertionError`/`ValueError`/`IndexError`
family raised inside `_parse_listing`, `KeyError` from the back-patch lookup,
`TypeError` from indexing a non-dict with a key or slice, and the artificial
`outOfFuel` marker of the fuel-driven recursion (proved unreachable for
sufficient fuel). -/
inductive PyErr where
  | outOfFuel
  | fileNotFound (path : String)
  | fuseError (code : ℕ)
  | parseError
  | keyError
  | typeError
deriving DecidableEq, Repr

/-- `errno.ENOENT`. -/
def enoent : ℕ := 2

/-- `errno.EIO`. -/
def eio : ℕ := 5

/-- `errno.EACCES`. -/
def eacces : ℕ := 13

/-- `errno.ENOTDIR`. -/
def enotdir : ℕ := 20

/-- `errno.EISDIR`. -/
def eisdir : ℕ := 21

/-- `errno.EROFS`. -/
def erofs : ℕ := 30

/-- `os.W_OK`. -/
def wOK : ℕ := 2

/-- `os.X_OK`. -/
def xOK : ℕ := 1

/-- `stat.S_IFDIR`. -/
def sIFDIR : ℕ := 0o040000

/-- `stat.S_IFREG`. -/
def sIFREG : ℕ := 0o100000

/-- Decidable equality of `Except` results, for concrete evaluation. -/
instance {ε α : Type} [DecidableEq ε] [DecidableEq α] :
    DecidableEq (Except ε α) := fun a b =>
  match a, b with
  | .ok x, .ok y =>
    if h : x = y then isTrue (by rw [h]) else isFalse (by intro hc; cases hc; exact h rfl)
  | .error x, .error y =>
    if h : x = y then isTrue (by rw [h]) else isFalse (by intro hc; cases hc; exact h rfl)
  | .ok _, .error _ => isFalse (by intro hc; cases hc)
  | .error _, .ok _ => isFalse (by intro hc; cases hc)

namespace Http

/-- The result of one operation: the Python return value or escaping
exception, the state after the call, and the log of `GET url` lines printed
(one per `requests.get` issued, in order). -/
abbrev Res (α : Type) := Except PyErr α × St × List String

/-- `Http._get`, fuel-indexed.  On a cache hit the entry (or the tombstoned
`FileNotFoundError`) is returned with no fetch.  On a miss the URL is fetched:
404 stores the tombstone and raises `FileNotFoundError`; any other non-200
status raises `FuseOSError(EIO)` without caching; a body carrying the listing
signature is parsed (a parse failure raises before the assignment, caching
nothing); any other body is cached as content and then the parent listing is
resolved recursively and its entry for this basename is overwritten with the
fetched length (back-patch). -/
def get : ℕ → Server → St → String → Res CacheEntry
  | 0, _, st, _ => (.error .outOfFuel, st, [])
  | fuel + 1, srv, st, path =>
    match lookupA st.cache path with
    | some .absent => (.error (.fileNotFound path), st, [])
    | some e => (.ok e, st, [])
    | none =>
      let url := fullPath st.root path
      let resp := srv url
      if resp.status = 404 then
        (.error (.fileNotFound path), setCache st path .absent, [url])
      else if resp.status ≠ 200 then
        (.error (.fuseError eio), st, [url])
      else if listingSig.toList.isPrefixOf resp.body.toList then
        match parseListing resp.body with
        | none => (.error .parseError, st, [url])
        | some d => (.ok (.listing d), setCache st path (.listing d), [url])
      else
        let st1 := setCache st path (.content resp.body)
        match get fuel srv st1 (dirnameS path) with
        | (.error e, st2, log2) => (.error e, st2, url :: log2)
        | (.ok (.listing d), st2, log2) =>
          match lookupA d (basenameS path) with
          | none => (.error .keyError, st2, url :: log2)
          | some ent =>
            (.ok (.content resp.body),
             setCache st2 (dirnameS path)
               (.listing (updAssoc d (basenameS path)
                 ⟨ent.icon, resp.body.length, ent.mtime⟩)),
             url :: log2)
        | (.ok _, st2, log2) => (.error .typeError, st2, url :: log2)

/-- `Http._getdent`: the synthetic root dent, or the entry for `basename path`
inside the parent's listing; a parent that is not an `OrderedDict` or whose
fetch raised `FileNotFoundError` yields `FuseOSError(ENOENT)`, and a missing
basename raises `FileNotFoundError(path)`. -/
def getdent (fuel : ℕ) (srv : Server) (st : St) (path : String) : Res Dirent :=
  if path = "/" then (.ok ⟨"DIR", 0, epochDT⟩, st, [])
  else
    match get fuel srv st (dirnameS path) with
    | (.error (.fileNotFound _), st2, log) => (.error (.fuseError enoent), st2, log)
    | (.error e, st2, log) => (.error e, st2, log)
    | (.ok (.listing d), st2, log) =>
      match lookupA d (basenameS path) with
      | some ent => (.ok ent, st2, log)
      | none => (.error (.fileNotFound path), st2, log)
    | (.ok _, st2, log) => (.error (.fuseError enoent), st2, log)

/-- `Http.access`. -/
def access (fuel : ℕ) (srv : Server) (st : St) (path : String) (mode : ℕ) :
    Res Unit :=
  if mode &&& wOK ≠ 0 then (.error (.fuseError erofs), st, [])
  else
    match getdent fuel srv st path with
    | (.error (.fileNotFound _), st2, log) => (.error (.fuseError enoent), st2, log)
    | (.error e, st2, log) => (.error e, st2, log)
    | (.ok ent, st2, log) =>
      if mode &&& xOK ≠ 0 ∧ ent.icon ≠ "DIR" then
        (.error (.fuseError eacces), st2, log)
      else (.ok (), st2, log)

/-- The stat dict returned by `Http.getattr`.  The three time fields hold the
`datetime` value whose `timestamp()` float is returned at the boundary. -/
structure Stat where
  st_mode : ℕ
  st_nlink : ℕ
  st_size : ℕ
  st_atime : DateTime
  st_ctime : DateTime
  st_mtime : DateTime
  st_uid : ℕ
  st_gid : ℕ
deriving DecidableEq, Repr

/-- `Http.getattr`. -/
def getattr (fuel : ℕ) (srv : Server) (st : St) (path : String) : Res Stat :=
  match getdent fuel srv st path with
  | (.error (.fileNotFound _), st2, log) => (.error (.fuseError enoent), st2, log)
  | (.error e, st2, log) => (.error e, st2, log)
  | (.ok ent, st2, log) =>
    let mode := (if ent.icon = "DIR" then 0o555 else 0o444)
      ||| (if ent.icon = "DIR" then sIFDIR else sIFREG)
    (.ok { st_mode := mode
           st_nlink := 1 + (if ent.icon = "DIR" then 1 else 0)
           st_size := ent.size
           st_atime := ent.mtime
           st_ctime := ent.mtime
           st_mtime := ent.mtime
           st_uid := st2.uid
           st_gid := st2.gid }, st2, log)

/-- `Http.readdir`.  Note that `_get`'s `FileNotFoundError` is not caught
here; it escapes unchanged. -/
def readdir (fuel : ℕ) (srv : Server) (st : St) (path : String) :
    Res (List String) :=
  match get fuel srv st path with
  | (.error e, st2, log) => (.error e, st2, log)
  | (.ok (.listing d), st2, log) => (.ok ("." :: ".." :: d.map Prod.fst), st2, log)
  | (.ok _, st2, log) => (.error (.fuseError enotdir), st2, log)

/-- `Http.open` (named `openf` since `open` is reserved in Lean): mask out
`O_LARGEFILE` (bit `0o100000`), reject anything but `O_RDONLY = 0` with
`EROFS`, translate `FileNotFoundError` to `ENOENT`, reject listings with
`EISDIR`, and otherwise hand out the incremented fd counter. -/
def openf (fuel : ℕ) (srv : Server) (st : St) (path : String) (flags : ℕ) :
    Res ℕ :=
  if flags - (flags &&& 0o100000) ≠ 0 then (.error (.fuseError erofs), st, [])
  else
    match get fuel srv st path with
    | (.error (.fileNotFound _), st2, log) => (.error (.fuseError enoent), st2, log)
    | (.error e, st2, log) => (.error e, st2, log)
    | (.ok (.listing _), st2, log) => (.error (.fuseError eisdir), st2, log)
    | (.ok _, st2, log) => (.ok (st2.fd + 1), { st2 with fd := st2.fd + 1 }, log)

/-- `Http.read`: `self._get(path)[offset : offset + length]`.  No type or
not-found handling at all: `FileNotFoundError` escapes unchanged, and slicing
an `OrderedDict` raises `TypeError` (a `slice` is unhashable), not `EISDIR`. -/
def read (fuel : ℕ) (srv : Server) (st : St) (path : String)
    (length offset : ℕ) : Res String :=
  match get fuel srv st path with
  | (.error e, st2, log) => (.error e, st2, log)
  | (.ok (.content b), st2, log) =>
    (.ok (String.mk ((b.toList.drop offset).take length)), st2, log)
  | (.ok _, st2, log) => (.error .typeError, st2, log)

end Http

/-! ## Concrete fixtures for counterexamples and witnesses -/

/-- A server answering every URL with HTTP 503. -/
def srv503 : Server := fun _ => ⟨503, ""⟩

/-- A server answering every URL with a five-byte non-listing body. -/
def srvPlain : Server := fun _ => ⟨200, "hello"⟩

/-- A fresh adapter state with an empty cache. -/
def st0 : St := ⟨"http://h", [], 65534, 65534, 0⟩

/-- A concrete auto-index body for the root with a single file entry. -/
def bodyRoot : String :=
  listingSig ++ "/</title>\n </head>\n <body>\n<pre>      Name                    Last modified      Size\n<img src=\"/icons/text.gif\" alt=\"[TXT]\"> <a href=\"a.txt\">a.txt</a>  01-Jan-2020 10:00  10K\n<hr>\n</pre>\n</body></html>"

/-- The parse of `bodyRoot`. -/
def dRoot : Listing := [("a.txt", ⟨"TXT", 10342, ⟨2020, 1, 1, 10, 0⟩⟩)]

/-- A server with the one-file root listing and content for `/a.txt`. -/
def srvRoot : Server := fun u =>
  if u = "http://h/" then ⟨200, bodyRoot⟩
  else if u = "http://h/a.txt" then ⟨200, "hello"⟩
  else ⟨404, ""⟩

/-- A state whose cache already holds the root listing. -/
def stRoot : St := ⟨"http://h", [("/", .listing dRoot)], 65534, 65534, 0⟩

/-- A state caching the root listing and the content of `/a.txt`. -/
def stFile : St :=
  ⟨"http://h", [("/", .listing dRoot), ("/a.txt", .content "hello")], 65534, 65534, 0⟩

/-- A state whose cache holds a tombstone for `/gone`. -/
def stTomb : St := ⟨"http://h", [("/gone", .absent)], 65534, 65534, 0⟩

/-- A server answering every URL with 200 and a listing-signature body that
fails to parse (it has no `<pre>` block). -/
def srvBadList : Server := fun _ => ⟨200, listingSig ++ "/</title>"⟩

/-- A state whose cache maps `/a.txt` to file content (used as a parent). -/
def stParentFile : St :=
  ⟨"http://h", [("/a.txt", .content "hello")], 65534, 65534, 0⟩

/-- An entry line for a 10K file. -/
def line10K : List Char :=
  "<img src=\"/icons/text.gif\" alt=\"[TXT]\"> <a href=\"a.txt\">a.txt</a> 01-Jan-2020 10:00  10K".toList

/-- An entry line for a 1.5M file. -/
def line15M : List Char :=
  "<img src=\"/icons/binary.gif\" alt=\"[   ]\"> <a href=\"b.bin\">b.bin</a> 02-Mar-2021 23:59  1.5M".toList

/-- An entry line for a directory with the conventional dash size. -/
def lineDash : List Char :=
  "<img src=\"/icons/folder.gif\" alt=\"[DIR]\"> <a href=\"sub/\">sub/</a> 01-Jan-2020 10:00    -".toList

/-- An entry line for a directory carrying a numeric size field. -/
def lineDirNum : List Char :=
  "<img src=\"/icons/folder.gif\" alt=\"[DIR]\"> <a href=\"s/\">s/</a> 01-Jan-2020 10:00  10K".toList

/-- The state after `/a.txt` has been stored as content and the root listing
has been fetched during the back-patch (but before the patch is written). -/
def stMid : St :=
  setCache (setCache st0 "/a.txt" (.content "hello")) "/" (.listing dRoot)

/-- An auto-index body whose two entry lines have the anchor texts `a/` (a
directory) and `a` (a file): both strip to the same name `a`. -/
def bodyDup : String :=
  listingSig ++ "/</title>\n </head>\n <body>\n<pre>      Name                    Last modified      Size\n<img src=\"/icons/folder.gif\" alt=\"[DIR]\"> <a href=\"a/\">a/</a>  01-Jan-2020 10:00    -\n<img src=\"/icons/text.gif\" alt=\"[TXT]\"> <a href=\"a\">a</a>  02-Jan-2020 11:00  10K\n<hr>\n</pre>\n</body></html>"


/-! ## Helper lemmas about association-list update and lookup -/

/-- Unfolding `lookupA` on the empty list. -/
theorem lookupA_nil {β : Type} (q : String) :
    lookupA ([] : List (String × β)) q = none := rfl

/-- Unfolding `lookupA` on a cons cell. -/
theorem lookupA_cons {β : Type} (k : String) (v : β) (t : List (String × β))
    (q : String) :
    lookupA ((k, v) :: t) q = if k = q then some v else lookupA t q := rfl

/-- Replacing the value at `k` (when present) makes `k` map to `v`. -/
theorem lookupA_replace_self {β : Type} (d : List (String × β)) (k : String)
    (v : β) (h : (lookupA d k).isSome) :
    lookupA (d.map (fun p => if p.1 = k then (k, v) else p)) k = some v := by
  induction d with
  | nil => simp [lookupA_nil] at h
  | cons p t ih =>
    obtain ⟨k1, v1⟩ := p
    by_cases hk : k1 = k
    · subst hk
      simp [lookupA_cons]
    · rw [lookupA_cons, if_neg hk] at h
      simp only [List.map_cons]
      rw [if_neg (by simpa using hk)]
      rw [lookupA_cons, if_neg hk]
      exact ih h

/-- Appending `(k, v)` to a list without `k` makes `k` map to `v`. -/
theorem lookupA_append_self {β : Type} (d : List (String × β)) (k : String)
    (v : β) (h : lookupA d k = none) :
    lookupA (d ++ [(k, v)]) k = some v := by
  induction d with
  | nil => simp [lookupA_cons]
  | cons p t ih =>
    obtain ⟨k1, v1⟩ := p
    by_cases hk : k1 = k
    · rw [lookupA_cons, if_pos hk] at h
      exact absurd h (by simp)
    · rw [lookupA_cons, if_neg hk] at h
      rw [List.cons_append, lookupA_cons, if_neg hk]
      exact ih h

/-- Replacing the value at `k` leaves every other key's lookup unchanged. -/
theorem lookupA_replace_ne {β : Type} (d : List (String × β)) (k q : String)
    (v : β) (hq : q ≠ k) :
    lookupA (d.map (fun p => if p.1 = k then (k, v) else p)) q = lookupA d q := by
  induction d with
  | nil => simp
  | cons p t ih =>
    obtain ⟨k1, v1⟩ := p
    by_cases hk : k1 = k
    · subst hk
      simp only [List.map_cons, if_pos rfl]
      rw [lookupA_cons, lookupA_cons]
      rw [if_neg (fun h => hq h.symm), if_neg (fun h => hq h.symm)]
      exact ih
    · simp only [List.map_cons]
      rw [if_neg (by simpa using hk)]
      rw [lookupA_cons, lookupA_cons]
      by_cases hq1 : k1 = q
      · rw [if_pos hq1, if_pos hq1]
      · rw [if_neg hq1, if_neg hq1]
        exact ih

/-- Appending `(k, v)` leaves every other key's lookup unchanged. -/
theorem lookupA_append_ne {β : Type} (d : List (String × β)) (k q : String)
    (v : β) (hq : q ≠ k) :
    lookupA (d ++ [(k, v)]) q = lookupA d q := by
  induction d with
  | nil =>
    rw [List.nil_append, lookupA_cons, lookupA_nil, if_neg (fun h => hq h.symm)]
  | cons p t ih =>
    obtain ⟨k1, v1⟩ := p
    rw [List.cons_append, lookupA_cons, lookupA_cons]
    by_cases hq1 : k1 = q
    · rw [if_pos hq1, if_pos hq1]
    · rw [if_neg hq1, if_neg hq1]
      exact ih

/-- After `d[k] = v`, looking up `k` yields `v`. -/
theorem lookupA_updAssoc_self {β : Type} (d : List (String × β)) (k : String)
    (v : β) : lookupA (updAssoc d k v) k = some v := by
  unfold updAssoc
  by_cases h : (lookupA d k).isSome
  · rw [if_pos h]
    exact lookupA_replace_self d k v h
  · rw [if_neg h]
    exact lookupA_append_self d k v (Option.not_isSome_iff_eq_none.mp h)

/-- After `d[k] = v`, looking up any other key is unchanged. -/
theorem lookupA_updAssoc_ne {β : Type} (d : List (String × β)) (k q : String)
    (v : β) (hq : q ≠ k) : lookupA (updAssoc d k v) q = lookupA d q := by
  unfold updAssoc
  by_cases h : (lookupA d k).isSome
  · rw [if_pos h]
    exact lookupA_replace_ne d k q v hq
  · rw [if_neg h]
    exact lookupA_append_ne d k q v hq

/-- In-place replacement does not change the key sequence. -/
theorem map_replace_fst {β : Type} (d : List (String × β)) (k : String) (v : β) :
    (d.map (fun p => if p.1 = k then (k, v) else p)).map Prod.fst
      = d.map Prod.fst := by
  induction d with
  | nil => rfl
  | cons p t ih =>
    obtain ⟨k1, v1⟩ := p
    by_cases hk : k1 = k
    · subst hk
      simp [ih]
    · simp [hk, ih]

/-- Assignment to a key already present does not change the key sequence. -/
theorem updAssoc_map_fst_of_mem {β : Type} (d : List (String × β)) (k : String)
    (v : β) (h : (lookupA d k).isSome) :
    (updAssoc d k v).map Prod.fst = d.map Prod.fst := by
  unfold updAssoc
  rw [if_pos h]
  exact map_replace_fst d k v

/-- Assignment to an absent key appends it to the key sequence. -/
theorem updAssoc_map_fst_of_not_mem {β : Type} (d : List (String × β))
    (k : String) (v : β) (h : ¬(lookupA d k).isSome) :
    (updAssoc d k v).map Prod.fst = d.map Prod.fst ++ [k] := by
  unfold updAssoc
  rw [if_neg h]
  simp

/-! ## Helper lemmas about `_get` and `dirname` -/

/-- A hit on the tombstone: `_get` raises `FileNotFoundError` without fetching
or changing anything. -/
theorem get_hit_absent (fuel : ℕ) (srv : Server) (st : St) (p : String)
    (h : lookupA st.cache p = some .absent) :
    Http.get (fuel + 1) srv st p = (.error (.fileNotFound p), st, []) := by
  simp [Http.get, h]

/-- A hit on a populated entry: `_get` returns it without fetching or changing
anything. -/
theorem get_hit_entry (fuel : ℕ) (srv : Server) (st : St) (p : String)
    (e : CacheEntry) (h : lookupA st.cache p = some e) (hne : e ≠ .absent) :
    Http.get (fuel + 1) srv st p = (.ok e, st, []) := by
  cases e with
  | absent => exact absurd rfl hne
  | listing d => simp [Http.get, h]
  | content b => simp [Http.get, h]

/-- The first element surviving `dropWhile` falsifies the predicate. -/
theorem dropWhile_head_false {α : Type} (p : α → Bool) (l : List α) (c : α)
    (t : List α) (h : l.dropWhile p = c :: t) : p c = false := by
  induction l with
  | nil => simp at h
  | cons x xs ih =>
    by_cases hx : p x = true
    · rw [List.dropWhile_cons, if_pos hx] at h
      exact ih h
    · rw [List.dropWhile_cons, if_neg hx] at h
      cases h
      simpa using hx

/-- `os.path.dirname` either fixes the path (the empty path, or a path that is
all slashes such as the root `/`) or strictly shortens it. -/
theorem dirnameL_cases (cs : List Char) :
    dirnameL cs = cs ∨ (dirnameL cs).length < cs.length := by
  have hsplit : cs.reverse.takeWhile (fun c => c ≠ '/')
      ++ cs.reverse.dropWhile (fun c => c ≠ '/') = cs.reverse :=
    List.takeWhile_append_dropWhile _ _
  have hlen : (cs.reverse.takeWhile (fun c => c ≠ '/')).length
      + (cs.reverse.dropWhile (fun c => c ≠ '/')).length = cs.length := by
    have h1 := congrArg List.length hsplit
    rw [List.length_append, List.length_reverse] at h1
    exact h1
  have hhd : splitHead cs = (cs.reverse.dropWhile (fun c => c ≠ '/')).reverse := rfl
  have hhdlen : (splitHead cs).length
      = (cs.reverse.dropWhile (fun c => c ≠ '/')).length := by
    rw [hhd, List.length_reverse]
  unfold dirnameL
  split
  · rename_i hcond
    right
    obtain ⟨hne, _⟩ := hcond
    have hdwne : cs.reverse.dropWhile (fun c => c ≠ '/') ≠ [] := by
      intro hc
      apply hne
      rw [hhd, hc]
      rfl
    obtain ⟨c0, t0, hct⟩ := List.exists_cons_of_ne_nil hdwne
    have hc0 : c0 = '/' := by
      have h3 := dropWhile_head_false (fun c => decide (c ≠ '/')) cs.reverse c0 t0 hct
      simpa using h3
    have hstrip : rstripSlashL (splitHead cs)
        = (t0.dropWhile (fun c => c = '/')).reverse := by
      rw [hhd]
      unfold rstripSlashL
      rw [List.reverse_reverse, hct, List.dropWhile_cons]
      rw [if_pos (by simp [hc0])]
    rw [hstrip]
    have h5 : (t0.dropWhile (fun c => c = '/')).length ≤ t0.length := by
      have h6 := congrArg List.length
        (List.takeWhile_append_dropWhile (fun c => decide (c = '/')) t0)
      rw [List.length_append] at h6
      omega
    have h7 : (cs.reverse.dropWhile (fun c => c ≠ '/')).length = t0.length + 1 := by
      rw [hct]
      rfl
    rw [List.length_reverse]
    omega
  · by_cases htw : cs.reverse.takeWhile (fun c => c ≠ '/') = []
    · left
      rw [htw, List.nil_append] at hsplit
      rw [hhd, hsplit, List.reverse_reverse]
    · right
      have h9 : 0 < (cs.reverse.takeWhile (fun c => c ≠ '/')).length :=
        List.length_pos.mpr htw
      rw [hhdlen]
      omega

/-- When `dirname` fixes a path list, the string-level `dirnameS` fixes the
string. -/
theorem dirnameS_eq_self (p : String) (h : dirnameL p.toList = p.toList) :
    dirnameS p = p := by
  unfold dirnameS
  rw [h]
  cases p
  rfl


/-! ## Claim C1 -/

/-- C1 counterexample: the claim says a well-formed entry with size field
`10K` decodes to `floor(0.1 + 10) * 1024 = 10240` and that directory entries
report size 0.  The parser actually decodes `10K` to
`int((0.1 + 10.0) * 1024) = 10342` in binary64 (the bias is added before the
multiplication, not floored first), and a directory entry line carrying a
numeric size field gets that nonzero size. -/
theorem sizeDecoding_not_floor_rule :
    parseEntry line10K = some ("a.txt", ⟨"TXT", 10342, ⟨2020, 1, 1, 10, 0⟩⟩)
    ∧ (10342 : ℕ) ≠ 10240
    ∧ parseEntry lineDirNum = some ("s", ⟨"DIR", 10342, ⟨2020, 1, 1, 10, 0⟩⟩)
    ∧ (10342 : ℕ) ≠ 0 := by decide

/-- C1 (amended): the parser decodes a dash size field to 0 (directories
conventionally show the dash), and a numeric size field with unit rank `k`
(ranks `''`, `K`, `M`, `G`, `T`, `P`) to
`int((0.1 + float(str_size)) * 2 ^ (10 * k))` evaluated in binary64
arithmetic; in particular `10K` decodes to 10342 and `1.5M` decodes to
1677721. -/
theorem sizeDecoding_binary64 :
    sizeDecode "-".toList [] = some 0
    ∧ sizeDecode "10".toList "K".toList = some 10342
    ∧ sizeDecode "1.5".toList "M".toList = some 1677721
    ∧ parseEntry lineDash = some ("sub", ⟨"DIR", 0, ⟨2020, 1, 1, 10, 0⟩⟩)
    ∧ parseEntry line15M
      = some ("b.bin", ⟨"   ", 1677721, ⟨2021, 3, 2, 23, 59⟩⟩) := by decide

/-! ## Claim C2 -/

/-- C2 counterexample: `read` on a path cached as a `DirectoryListing` does
not fail with `EISDIR`; it raises an unhandled `TypeError` (an `OrderedDict`
indexed with a slice). -/
theorem read_on_listing_typeerror :
    Http.read 1 srv503 stRoot "/" 4096 0 = (.error .typeError, stRoot, [])
    ∧ (Http.read 1 srv503 stRoot "/" 4096 0).1
      ≠ .error (.fuseError eisdir) := by decide

/-- C2 (amended): for a path cached as a `DirectoryListing`, `open` (with a
read-only flag word) fails `EISDIR` and `read` raises `TypeError` (not
`EISDIR`); for a path cached as `FileContent`, `readdir` fails `ENOTDIR`. -/
theorem typed_access_errors (fuel : ℕ) (srv : Server) (st : St) (p : String) :
    (∀ d flags, lookupA st.cache p = some (.listing d) →
      flags - (flags &&& 0o100000) = 0 →
      Http.openf (fuel + 1) srv st p flags = (.error (.fuseError eisdir), st, []))
    ∧ (∀ d len off, lookupA st.cache p = some (.listing d) →
      Http.read (fuel + 1) srv st p len off = (.error .typeError, st, []))
    ∧ (∀ b, lookupA st.cache p = some (.content b) →
      Http.readdir (fuel + 1) srv st p = (.error (.fuseError enotdir), st, [])) := by
  refine ⟨?_, ?_, ?_⟩
  · intro d flags h hf
    have hget := get_hit_entry fuel srv st p (.listing d) h (by simp)
    unfold Http.openf
    rw [if_neg (by simp [hf]), hget]
  · intro d len off h
    have hget := get_hit_entry fuel srv st p (.listing d) h (by simp)
    unfold Http.read
    rw [hget]
  · intro b h
    have hget := get_hit_entry fuel srv st p (.content b) h (by simp)
    unfold Http.readdir
    rw [hget]

/-- Witness for `typed_access_errors` at concrete cached states. -/
theorem typed_access_errors_witness :
    Http.openf 1 srv503 stRoot "/" 0 = (.error (.fuseError eisdir), stRoot, [])
    ∧ Http.read 1 srv503 stRoot "/" 4096 0 = (.error .typeError, stRoot, [])
    ∧ Http.readdir 1 srv503 stFile "/a.txt"
      = (.error (.fuseError enotdir), stFile, []) := by
  refine ⟨?_, ?_, ?_⟩
  · exact (typed_access_errors 0 srv503 stRoot "/").1 dRoot 0 (by decide) (by decide)
  · exact (typed_access_errors 0 srv503 stRoot "/").2.1 dRoot 4096 0 (by decide)
  · exact (typed_access_errors 0 srv503 stFile "/a.txt").2.2 "hello" (by decide)

/-! ## Claim C4 -/

/-- C4 counterexample: a status that is neither 200 nor 404 is not cached, so
two successive accesses to the same path issue two HTTP GETs for it — the
claimed "at most one HTTP GET over the whole process life" fails. -/
theorem transport_refetch_two_gets :
    (Http.get 2 srv503 st0 "/x").2.2
      ++ (Http.get 2 srv503 (Http.get 2 srv503 st0 "/x").2.1 "/x").2.2
      = ["http://h/x", "http://h/x"] := by decide

/-- C4 (amended): once the cache holds an entry for a path — a populated
listing or content, or the `Absent` tombstone — any later `_get` of that path
issues no HTTP request and leaves the state unchanged: the tombstone fails
`NotFound` forever, and a populated entry is served from the cache.  A fetch
that stores no cache entry caches nothing and leaves the state unchanged, so
such a path is fetched again on each later access; this happens in exactly two
ways: a transport error (status neither 200 nor 404), and a 200 response whose
body carries the listing signature but whose parse fails (the exception is
raised before the cache assignment). -/
theorem cached_paths_no_refetch (fuel : ℕ) (srv : Server) (st : St)
    (p : String) :
    (∀ e, lookupA st.cache p = some e →
      (e = .absent →
        Http.get (fuel + 1) srv st p = (.error (.fileNotFound p), st, []))
      ∧ (e ≠ .absent → Http.get (fuel + 1) srv st p = (.ok e, st, [])))
    ∧ (lookupA st.cache p = none →
      (srv (fullPath st.root p)).status = 200 →
      listingSig.toList.isPrefixOf (srv (fullPath st.root p)).body.toList = true →
      parseListing (srv (fullPath st.root p)).body = none →
      Http.get (fuel + 1) srv st p
        = (.error .parseError, st, [fullPath st.root p]))
    ∧ (lookupA st.cache p = none →
      (srv (fullPath st.root p)).status ≠ 404 →
      (srv (fullPath st.root p)).status ≠ 200 →
      Http.get (fuel + 1) srv st p
        = (.error (.fuseError eio), st, [fullPath st.root p])) := by
  refine ⟨?_, ?_, ?_⟩
  · intro e h
    constructor
    · intro he
      subst he
      exact get_hit_absent fuel srv st p h
    · intro hne
      exact get_hit_entry fuel srv st p e h hne
  · intro hm h200 hpre hparse
    simp only [Http.get, hm]
    rw [if_neg (by rw [h200]; decide)]
    rw [if_neg (by rw [h200]; simp)]
    rw [if_pos hpre, hparse]
  · intro hm h404 h200
    simp [Http.get, hm, h404, h200]

/-- Witness for `cached_paths_no_refetch`: a tombstoned path keeps failing
`NotFound` with no fetch, cached content is served with no fetch, and both
non-caching fetch outcomes — a malformed 200 listing body and a 503 — leave the
state unchanged with the GET logged. -/
theorem cached_paths_no_refetch_witness :
    Http.get 1 srv503 stTomb "/gone" = (.error (.fileNotFound "/gone"), stTomb, [])
    ∧ Http.get 1 srv503 stFile "/a.txt" = (.ok (.content "hello"), stFile, [])
    ∧ Http.get 1 srvBadList st0 "/x" = (.error .parseError, st0, ["http://h/x"])
    ∧ Http.get 1 srv503 st0 "/x"
      = (.error (.fuseError eio), st0, ["http://h/x"]) := by
  refine ⟨?_, ?_, ?_, ?_⟩
  · exact ((cached_paths_no_refetch 0 srv503 stTomb "/gone").1 .absent
      (by decide)).1 rfl
  · exact ((cached_paths_no_refetch 0 srv503 stFile "/a.txt").1 (.content "hello")
      (by decide)).2 (by decide)
  · have h := (cached_paths_no_refetch 0 srvBadList st0 "/x").2.1 (by decide)
      (by decide) (by decide) (by decide)
    exact h.trans (by decide)
  · have h := (cached_paths_no_refetch 0 srv503 st0 "/x").2.2 (by decide)
      (by decide) (by decide)
    exact h.trans (by decide)

/-! ## Claim C6 -/

/-- C6: `getattr` on the root path always succeeds with a synthetic directory
stat — directory mode bits `0o555 | S_IFDIR`, link count 2, size 0, the fixed
epoch timestamp — for every server and every state, touching neither the cache
nor the network (the empty request log). -/
theorem getattr_root_synthetic (fuel : ℕ) (srv : Server) (st : St) :
    Http.getattr fuel srv st "/" =
      (.ok { st_mode := 0o555 ||| sIFDIR, st_nlink := 2, st_size := 0,
             st_atime := epochDT, st_ctime := epochDT, st_mtime := epochDT,
             st_uid := st.uid, st_gid := st.gid }, st, []) := by
  simp [Http.getattr, Http.getdent]

/-! ## Claim C7 -/

/-- C7: `access` fails `EROFS` whenever the mode requests write access (before
any lookup); otherwise it resolves the dent and fails `ENOENT` when the path
is missing (both the `FileNotFoundError` flavour and the parent-side
`FuseOSError(ENOENT)` flavour), fails `EACCES` when execute is requested on a
non-directory, and succeeds on an existing path for a read-only mode. -/
theorem access_modes (fuel : ℕ) (srv : Server) (st : St) (p : String)
    (mode : ℕ) :
    (mode &&& wOK ≠ 0 →
      Http.access (fuel + 1) srv st p mode = (.error (.fuseError erofs), st, []))
    ∧ (mode &&& wOK = 0 → ∀ q st2 log,
      Http.getdent (fuel + 1) srv st p = (.error (.fileNotFound q), st2, log) →
      Http.access (fuel + 1) srv st p mode = (.error (.fuseError enoent), st2, log))
    ∧ (mode &&& wOK = 0 → ∀ st2 log,
      Http.getdent (fuel + 1) srv st p = (.error (.fuseError enoent), st2, log) →
      Http.access (fuel + 1) srv st p mode = (.error (.fuseError enoent), st2, log))
    ∧ (mode &&& wOK = 0 → ∀ ent st2 log,
      Http.getdent (fuel + 1) srv st p = (.ok ent, st2, log) →
      mode &&& xOK ≠ 0 → ent.icon ≠ "DIR" →
      Http.access (fuel + 1) srv st p mode = (.error (.fuseError eacces), st2, log))
    ∧ (mode &&& wOK = 0 → ∀ ent st2 log,
      Http.getdent (fuel + 1) srv st p = (.ok ent, st2, log) →
      (mode &&& xOK = 0 ∨ ent.icon = "DIR") →
      Http.access (fuel + 1) srv st p mode = (.ok (), st2, log)) := by
  refine ⟨?_, ?_, ?_, ?_, ?_⟩
  · intro hw
    unfold Http.access
    rw [if_pos hw]
  · intro hw q st2 log hdent
    unfold Http.access
    rw [if_neg (by simp [hw]), hdent]
  · intro hw st2 log hdent
    unfold Http.access
    rw [if_neg (by simp [hw]), hdent]
  · intro hw ent st2 log hdent hx hicon
    unfold Http.access
    rw [if_neg (by simp [hw]), hdent]
    simp only
    rw [if_pos ⟨hx, hicon⟩]
  · intro hw ent st2 log hdent hro
    unfold Http.access
    rw [if_neg (by simp [hw]), hdent]
    simp only
    rw [if_neg (by
      intro hcon
      obtain ⟨hx, hicon⟩ := hcon
      rcases hro with h1 | h2
      · exact hx h1
      · exact hicon h2)]

/-- Witness for `access_modes` at a concrete state with the root listing
cached: write mode fails `EROFS`, a missing path fails `ENOENT`, execute on a
file fails `EACCES`, and a read-only probe of the file succeeds. -/
theorem access_modes_witness :
    Http.access 1 srv503 stRoot "/a.txt" 2 = (.error (.fuseError erofs), stRoot, [])
    ∧ Http.access 1 srv503 stRoot "/nope" 4
      = (.error (.fuseError enoent), stRoot, [])
    ∧ Http.access 1 srv503 stRoot "/a.txt" 1
      = (.error (.fuseError eacces), stRoot, [])
    ∧ Http.access 1 srv503 stRoot "/a.txt" 4 = (.ok (), stRoot, []) := by
  refine ⟨?_, ?_, ?_, ?_⟩
  · exact (access_modes 0 srv503 stRoot "/a.txt" 2).1 (by decide)
  · exact (access_modes 0 srv503 stRoot "/nope" 4).2.1 (by decide) "/nope" stRoot []
      (by decide)
  · exact (access_modes 0 srv503 stRoot "/a.txt" 1).2.2.2.1 (by decide)
      ⟨"TXT", 10342, ⟨2020, 1, 1, 10, 0⟩⟩ stRoot [] (by decide) (by decide) (by decide)
  · exact (access_modes 0 srv503 stRoot "/a.txt" 4).2.2.2.2 (by decide)
      ⟨"TXT", 10342, ⟨2020, 1, 1, 10, 0⟩⟩ stRoot [] (by decide) (Or.inl (by decide))

/-! ## Claim C8 -/

/-- C8: a fetch that returns a status other than 200 and 404 raises
`FuseOSError(EIO)` and leaves the whole state — in particular the cache entry
for that path — unchanged, while the request log records the GET; since the
path stays uncached, the next access fetches it again. -/
theorem transport_error_not_cached (fuel : ℕ) (srv : Server) (st : St)
    (p : String)
    (hmiss : lookupA st.cache p = none)
    (h404 : (srv (fullPath st.root p)).status ≠ 404)
    (h200 : (srv (fullPath st.root p)).status ≠ 200) :
    Http.get (fuel + 1) srv st p
      = (.error (.fuseError eio), st, [fullPath st.root p]) := by
  simp [Http.get, hmiss, h404, h200]

/-- Witness for `transport_error_not_cached` on a 503-answering server. -/
theorem transport_error_not_cached_witness :
    Http.get 1 srv503 st0 "/x" = (.error (.fuseError eio), st0, ["http://h/x"]) := by
  have h := transport_error_not_cached 0 srv503 st0 "/x" (by decide) (by decide)
    (by decide)
  exact h.trans (by decide)

/-! ## Claim C10 -/

/-- C10: for a non-root path whose parent path is cached as `FileContent`,
the dent lookup hits the `not isinstance(dir, OrderedDict)` branch, so
`getattr` and (for a mode without write access) `access` fail with `ENOENT`,
not with `ENOTDIR`. -/
theorem parent_file_not_found (fuel : ℕ) (srv : Server) (st : St) (p : String)
    (b : String) (mode : ℕ)
    (hp : p ≠ "/")
    (hpar : lookupA st.cache (dirnameS p) = some (.content b))
    (hw : mode &&& wOK = 0) :
    Http.getattr (fuel + 1) srv st p = (.error (.fuseError enoent), st, [])
    ∧ Http.access (fuel + 1) srv st p mode = (.error (.fuseError enoent), st, [])
    ∧ enoent ≠ enotdir := by
  have hget := get_hit_entry fuel srv st (dirnameS p) (.content b) hpar (by simp)
  have hdent : Http.getdent (fuel + 1) srv st p
      = (.error (.fuseError enoent), st, []) := by
    unfold Http.getdent
    rw [if_neg hp, hget]
  refine ⟨?_, ?_, by decide⟩
  · unfold Http.getattr
    rw [hdent]
  · unfold Http.access
    rw [if_neg (by simp [hw]), hdent]

/-- Witness for `parent_file_not_found` below a path cached as a file. -/
theorem parent_file_not_found_witness :
    Http.getattr 1 srv503 stParentFile "/a.txt/sub"
      = (.error (.fuseError enoent), stParentFile, [])
    ∧ Http.access 1 srv503 stParentFile "/a.txt/sub" 4
      = (.error (.fuseError enoent), stParentFile, []) := by
  have h := parent_file_not_found 0 srv503 stParentFile "/a.txt/sub" "hello" 4
    (by decide) (by decide) (by decide)
  exact ⟨h.1, h.2.1⟩


/-! ## Further helper lemmas for order preservation and termination -/

/-- `lookupA` succeeds exactly on the keys of the list. -/
theorem lookupA_isSome_iff_mem {β : Type} (d : List (String × β)) (k : String) :
    (lookupA d k).isSome ↔ k ∈ d.map Prod.fst := by
  induction d with
  | nil => simp [lookupA_nil]
  | cons p t ih =>
    obtain ⟨k1, v1⟩ := p
    rw [lookupA_cons]
    by_cases hk : k1 = k
    · subst hk
      simp
    · rw [if_neg hk]
      simp only [List.map_cons, List.mem_cons]
      rw [ih]
      constructor
      · intro hm
        exact Or.inr hm
      · intro hm
        rcases hm with h1 | h2
        · exact absurd h1.symm hk
        · exact h2

/-- Unfolding `firstDedupAux` on a cons cell. -/
theorem firstDedupAux_cons (a : String) (l seen : List String) :
    firstDedupAux (a :: l) seen
      = if a ∈ seen then firstDedupAux l seen
        else a :: firstDedupAux l (a :: seen) := rfl

/-- `firstDedupAux` depends on the seen accumulator only through membership. -/
theorem firstDedupAux_congr (l : List String) (s1 s2 : List String)
    (h : ∀ x, x ∈ s1 ↔ x ∈ s2) : firstDedupAux l s1 = firstDedupAux l s2 := by
  induction l generalizing s1 s2 with
  | nil => rfl
  | cons a t ih =>
    rw [firstDedupAux_cons, firstDedupAux_cons]
    by_cases ha : a ∈ s1
    · rw [if_pos ha, if_pos ((h a).mp ha)]
      exact ih s1 s2 h
    · rw [if_neg ha, if_neg (fun hx => ha ((h a).mpr hx))]
      refine congrArg _ (ih (a :: s1) (a :: s2) ?_)
      intro x
      simp [h x]

/-- On a duplicate-free list disjoint from the accumulator, first-occurrence
deduplication is the identity. -/
theorem firstDedupAux_of_nodup (l : List String) (seen : List String)
    (hnd : l.Nodup) (hdisj : ∀ x ∈ l, x ∉ seen) :
    firstDedupAux l seen = l := by
  induction l generalizing seen with
  | nil => rfl
  | cons a t ih =>
    rw [firstDedupAux_cons, if_neg (hdisj a (by simp))]
    refine congrArg _ (ih (a :: seen) (List.Nodup.of_cons hnd) ?_)
    intro x hx
    simp only [List.mem_cons]
    intro hc
    rcases hc with h1 | h2
    · subst h1
      exact (List.nodup_cons.mp hnd).1 hx
    · exact hdisj x (by simp [hx]) h2

/-- Unfolding `anchorNames` on a cons cell. -/
theorem anchorNames_cons (l : List Char) (t : List (List Char)) :
    anchorNames (l :: t)
      = match entryMatch l, anchorNames t with
        | some g, some as => some (String.mk g.name :: as)
        | _, _ => none := rfl

/-- A successful `parseEntry` stores the line's anchor text with trailing
slashes stripped as the entry name. -/
theorem parseEntry_name (l : List Char) (n : String) (e : Dirent)
    (h : parseEntry l = some (n, e)) :
    ∃ g, entryMatch l = some g ∧ n = String.mk (rstripSlashL g.name) := by
  unfold parseEntry at h
  cases hm : entryMatch l with
  | none =>
    rw [hm] at h
    cases h
  | some g =>
    rw [hm] at h
    refine ⟨g, rfl, ?_⟩
    have h2 : (if g.url ≠ g.name then (none : Option (String × Dirent))
        else if (g.name.getLast? = some '/') ↔ (g.icon = "DIR".toList) then
          match strptimeDMY g.date g.time, sizeDecode g.size g.sizeunit with
          | some mt, some sz =>
            some (String.mk (rstripSlashL g.name), ⟨String.mk g.icon, sz, mt⟩)
          | _, _ => none
        else none) = some (n, e) := h
    by_cases hu : g.url ≠ g.name
    · rw [if_pos hu] at h2
      cases h2
    · rw [if_neg hu] at h2
      by_cases hiff : (g.name.getLast? = some '/') ↔ (g.icon = "DIR".toList)
      · rw [if_pos hiff] at h2
        cases h3 : strptimeDMY g.date g.time with
        | none =>
          rw [h3] at h2
          cases h4 : sizeDecode g.size g.sizeunit with
          | none =>
            rw [h4] at h2
            exact Option.noConfusion h2
          | some sz =>
            rw [h4] at h2
            exact Option.noConfusion h2
        | some mt =>
          rw [h3] at h2
          cases h4 : sizeDecode g.size g.sizeunit with
          | none =>
            rw [h4] at h2
            exact Option.noConfusion h2
          | some sz =>
            rw [h4] at h2
            have h5 : some (String.mk (rstripSlashL g.name),
                (⟨String.mk g.icon, sz, mt⟩ : Dirent)) = some (n, e) := h2
            injection h5 with h6
            injection h6 with h7 h8
            exact h7.symm
      · rw [if_neg hiff] at h2
        cases h2

/-- The ordered dict built by the entry loop lists, after the inherited
accumulator keys, exactly the first occurrences of the stripped anchor texts
that are not already accumulator keys, in input order. -/
theorem parseEntries_keys (ls : List (List Char)) (acc acc2 : Listing)
    (h : parseEntries ls acc = some acc2) :
    ∃ as, anchorNames ls = some as ∧
      acc2.map Prod.fst = acc.map Prod.fst
        ++ firstDedupAux (as.map stripSlashS) (acc.map Prod.fst) := by
  induction ls generalizing acc acc2 with
  | nil =>
    refine ⟨[], rfl, ?_⟩
    have h2 : some acc = some acc2 := h
    cases h2
    simp [firstDedupAux]
  | cons l t ih =>
    unfold parseEntries at h
    cases hp : parseEntry l with
    | none =>
      rw [hp] at h
      cases h
    | some pr =>
      obtain ⟨n, e⟩ := pr
      rw [hp] at h
      have h2 : parseEntries t (updAssoc acc n e) = some acc2 := h
      obtain ⟨as, has, hkeys⟩ := ih (updAssoc acc n e) acc2 h2
      obtain ⟨g, hg, hn⟩ := parseEntry_name l n e hp
      have hstrip : stripSlashS (String.mk g.name) = n := by
        rw [hn]
        rfl
      refine ⟨String.mk g.name :: as, ?_, ?_⟩
      · rw [anchorNames_cons, hg, has]
      · rw [hkeys]
        simp only [List.map_cons, hstrip]
        by_cases hmem : n ∈ acc.map Prod.fst
        · rw [updAssoc_map_fst_of_mem acc n e
            ((lookupA_isSome_iff_mem acc n).mpr hmem)]
          rw [firstDedupAux_cons, if_pos hmem]
        · rw [updAssoc_map_fst_of_not_mem acc n e
            (fun hs => hmem ((lookupA_isSome_iff_mem acc n).mp hs))]
          rw [firstDedupAux_cons, if_neg hmem]
          rw [firstDedupAux_congr (as.map stripSlashS)
            (acc.map Prod.fst ++ [n]) (n :: acc.map Prod.fst)
            (by intro x; simp [or_comm])]
          rw [List.append_assoc, List.singleton_append]

/-! ## Claim C3 -/

/-- C3: when `_get` fetches non-listing content for an uncached path `p` and
the parent resolves to a listing `d` containing `basename p`, the call
returns the content, and the parent's cached listing afterwards maps
`basename p` to the same icon and modification time with the size overwritten
by the exact fetched length, every other key's entry untouched and the key
order unchanged. -/
theorem backpatch_frame (fuel : ℕ) (srv : Server) (st : St) (p : String)
    (d : Listing) (ent : Dirent) (st2 : St) (log2 : List String)
    (hmiss : lookupA st.cache p = none)
    (hstatus : (srv (fullPath st.root p)).status = 200)
    (hnotlist : listingSig.toList.isPrefixOf
      (srv (fullPath st.root p)).body.toList = false)
    (hpar : Http.get fuel srv
        (setCache st p (.content (srv (fullPath st.root p)).body)) (dirnameS p)
      = (.ok (.listing d), st2, log2))
    (hent : lookupA d (basenameS p) = some ent) :
    Http.get (fuel + 1) srv st p
      = (.ok (.content (srv (fullPath st.root p)).body),
         setCache st2 (dirnameS p)
           (.listing (updAssoc d (basenameS p)
             ⟨ent.icon, (srv (fullPath st.root p)).body.length, ent.mtime⟩)),
         fullPath st.root p :: log2)
    ∧ lookupA (updAssoc d (basenameS p)
          ⟨ent.icon, (srv (fullPath st.root p)).body.length, ent.mtime⟩)
        (basenameS p)
      = some ⟨ent.icon, (srv (fullPath st.root p)).body.length, ent.mtime⟩
    ∧ (∀ k, k ≠ basenameS p →
        lookupA (updAssoc d (basenameS p)
            ⟨ent.icon, (srv (fullPath st.root p)).body.length, ent.mtime⟩) k
        = lookupA d k)
    ∧ (updAssoc d (basenameS p)
        ⟨ent.icon, (srv (fullPath st.root p)).body.length, ent.mtime⟩).map
          Prod.fst
      = d.map Prod.fst := by
  refine ⟨?_, lookupA_updAssoc_self d (basenameS p) _,
    fun k hk => lookupA_updAssoc_ne d (basenameS p) k _ hk,
    updAssoc_map_fst_of_mem d (basenameS p) _ (by rw [hent]; rfl)⟩
  simp only [Http.get, hmiss]
  rw [if_neg (by rw [hstatus]; decide)]
  rw [if_neg (by rw [hstatus]; simp)]
  rw [if_neg (by rw [hnotlist]; decide)]
  rw [hpar]
  simp [hent]

/-- Witness for `backpatch_frame`: fetching the five-byte `/a.txt` back-patches
the parent entry's size from the listing-derived 10342 to 5. -/
theorem backpatch_frame_witness :
    Http.get 2 srvRoot st0 "/a.txt"
      = (.ok (.content "hello"),
         setCache stMid "/"
           (.listing [("a.txt", ⟨"TXT", 5, ⟨2020, 1, 1, 10, 0⟩⟩)]),
         ["http://h/a.txt", "http://h/"]) := by
  have h := (backpatch_frame 1 srvRoot st0 "/a.txt" dRoot
    ⟨"TXT", 10342, ⟨2020, 1, 1, 10, 0⟩⟩ stMid ["http://h/"]
    (by decide) (by decide) (by decide) (by decide) (by decide)).1
  exact h.trans (by decide)

/-! ## Claim C5 -/

/-- C5 counterexample: a well-formed listing whose entry lines carry the
anchor texts `a/` and `a` parses successfully, but the ordered mapping has a
single entry (the later line overwrote the earlier one at its original
position), so the entry names cannot be in bijection with the two anchor
texts. -/
theorem duplicate_names_collapse :
    parseListing bodyDup = some [("a", ⟨"TXT", 10342, ⟨2020, 1, 2, 11, 0⟩⟩)]
    ∧ (extractEntries bodyDup).bind anchorNames = some ["a/", "a"]
    ∧ (([("a", (⟨"TXT", 10342, ⟨2020, 1, 2, 11, 0⟩⟩ : Dirent))] : Listing).map
        Prod.fst).length
      ≠ (["a/", "a"] : List String).length := by decide

/-- C5 (amended): for every well-formed listing body, the parser returns an
ordered mapping whose key sequence is the first-occurrence deduplication of
the entry lines' anchor texts with trailing slashes stripped, in input order;
when those stripped anchor texts are pairwise distinct the key sequence equals
them exactly, an order-preserving bijection between entry names and anchor
texts (a later duplicate collapses onto the first occurrence, keeping its
position and taking the later value). -/
theorem parse_order_names (text : String) (d : Listing)
    (h : parseListing text = some d) :
    ∃ ls as, extractEntries text = some ls ∧ anchorNames ls = some as ∧
      d.map Prod.fst = firstDedup (as.map stripSlashS) ∧
      ((as.map stripSlashS).Nodup → d.map Prod.fst = as.map stripSlashS) := by
  unfold parseListing at h
  cases he : extractEntries text with
  | none =>
    rw [he] at h
    cases h
  | some ls =>
    rw [he] at h
    have h2 : parseEntries ls [] = some d := h
    obtain ⟨as, has, hkeys⟩ := parseEntries_keys ls [] d h2
    refine ⟨ls, as, rfl, has, ?_, ?_⟩
    · rw [hkeys]
      simp only [List.map_nil, List.nil_append]
      rfl
    · intro hnd
      rw [hkeys]
      simp only [List.map_nil, List.nil_append]
      exact firstDedupAux_of_nodup (as.map stripSlashS) [] hnd (by simp)

/-- Witness for `parse_order_names` on the concrete one-entry root listing. -/
theorem parse_order_names_witness :
    ∃ ls as, extractEntries bodyRoot = some ls ∧ anchorNames ls = some as ∧
      dRoot.map Prod.fst = firstDedup (as.map stripSlashS) ∧
      ((as.map stripSlashS).Nodup → dRoot.map Prod.fst = as.map stripSlashS) :=
  parse_order_names bodyRoot dRoot (by decide)

/-! ## Claim C9 -/

/-- C9 counterexample: the recursive back-patch lookup for the root path is
not on a strictly shorter path — `dirname('/') = '/'` — and when the server
answers the root URL with a non-listing body the root itself is cached as file
content; the recursion still terminates (no fuel exhaustion), but only because
the recursive `_get` hits the just-written cache entry. -/
theorem root_parent_not_shorter :
    dirnameS "/" = "/"
    ∧ Http.get 3 srvPlain st0 "/"
      = (.error .typeError, setCache st0 "/" (.content "hello"), ["http://h/"])
    ∧ lookupA (Http.get 3 srvPlain st0 "/").2.1.cache "/"
      = some (.content "hello")
    ∧ (Http.get 3 srvPlain st0 "/").1 ≠ .error .outOfFuel := by decide

/-- C9 (amended): `_get` terminates for every path and every server: each
recursive call is either on a strictly shorter parent path or — when
`dirname` fixes the path, as at the root — an immediate cache hit on the entry
written just before the recursion, so recursion depth is bounded by the path
length and fuel `length + 2` is never exhausted. -/
theorem get_fuel_bounded (srv : Server) (fuel : ℕ) (st : St) (p : String)
    (h : p.toList.length + 2 ≤ fuel) :
    (Http.get fuel srv st p).1 ≠ .error .outOfFuel := by
  induction fuel generalizing st p with
  | zero => omega
  | succ n ih =>
    by_cases hsome : ∃ e, lookupA st.cache p = some e
    · obtain ⟨e, he⟩ := hsome
      cases e with
      | absent =>
        rw [get_hit_absent n srv st p he]
        simp
      | listing d =>
        rw [get_hit_entry n srv st p (.listing d) he (by simp)]
        simp
      | content b =>
        rw [get_hit_entry n srv st p (.content b) he (by simp)]
        simp
    · have hm : lookupA st.cache p = none := by
        cases hl : lookupA st.cache p with
        | none => rfl
        | some e => exact absurd ⟨e, hl⟩ hsome
      simp only [Http.get, hm]
      by_cases h404 : (srv (fullPath st.root p)).status = 404
      · simp [h404]
      · rw [if_neg h404]
        by_cases h200 : (srv (fullPath st.root p)).status = 200
        · rw [if_neg (by simp [h200])]
          by_cases hpre : listingSig.toList.isPrefixOf
              (srv (fullPath st.root p)).body.toList = true
          · rw [if_pos hpre]
            cases hpl : parseListing (srv (fullPath st.root p)).body with
            | none => simp [hpl]
            | some d => simp [hpl]
          · rw [if_neg hpre]
            rcases dirnameL_cases p.toList with heq | hlt
            · have hdp : dirnameS p = p := dirnameS_eq_self p heq
              obtain ⟨m, rfl⟩ : ∃ m, n = m + 1 := ⟨n - 1, by omega⟩
              have hhit : Http.get (m + 1) srv
                  (setCache st p (.content (srv (fullPath st.root p)).body))
                  (dirnameS p)
                  = (.ok (.content (srv (fullPath st.root p)).body),
                     setCache st p (.content (srv (fullPath st.root p)).body),
                     []) := by
                rw [hdp]
                exact get_hit_entry m srv
                  (setCache st p (.content (srv (fullPath st.root p)).body)) p
                  (.content (srv (fullPath st.root p)).body)
                  (lookupA_updAssoc_self st.cache p
                    (.content (srv (fullPath st.root p)).body))
                  (by simp)
              rw [hhit]
              simp
            · have hrec := ih
                (setCache st p (.content (srv (fullPath st.root p)).body))
                (dirnameS p)
                (by
                  have e1 : (dirnameS p).toList.length
                      = (dirnameL p.toList).length := rfl
                  omega)
              rcases hr : Http.get n srv
                  (setCache st p (.content (srv (fullPath st.root p)).body))
                  (dirnameS p) with ⟨r1, str, logr⟩
              rw [hr] at hrec
              cases r1 with
              | error e =>
                simp only [] at hrec ⊢
                simpa using hrec
              | ok ce =>
                cases ce with
                | absent => simp
                | content b => simp
                | listing dd =>
                  cases hb : lookupA dd (basenameS p) with
                  | none => simp [hb]
                  | some ent => simp [hb]
        · rw [if_pos (by simp [h200])]
          simp

/-- Witness for `get_fuel_bounded` at a concrete path and fuel. -/
theorem get_fuel_bounded_witness :
    "/x".toList.length + 2 ≤ 4
    ∧ (Http.get 4 srv503 st0 "/x").1 ≠ .error .outOfFuel :=
  ⟨by decide, get_fuel_bounded srv503 4 st0 "/x" (by decide)⟩

end AHMount
